import Mathlib

/-!
Verification development for the fruit-merge backend (Express app, three
source revisions in `server.js`: v1.0, v3.1 and v3.5).  The JavaScript
data model and routines are shallowly embedded: JS `Map`s become ordered
association lists, JS numbers used as integers become `Int`, absent or
`undefined` values become `Option`, and JS truthiness on strings and
numbers is modelled explicitly.  Time-dependent inputs (`Date.now()`,
the computed ISO week key) are passed as parameters.  Outbound bot calls
(`sendMessage`, `answerPreCheckoutQuery`) and file persistence
(`saveData`) are external effects and do not change the store; they are
dropped from the state transformers.
-/

namespace FruitMerge

/-- JS string truthiness: the empty string is falsy, so `x || y` on an
optional string yields `none` exactly when the value is absent or `""`. -/
def jsStr : Option String → Option String
  | some "" => none
  | o => o

/-- JS `a || d` for an optional string `a` and a default `d`. -/
def strOr (a : Option String) (d : String) : String :=
  match jsStr a with
  | some s => s
  | none => d

/-- JS falsiness of an optional numeric value: `undefined`/missing and `0`
are falsy (`!score` in the source). -/
def intFalsy : Option Int → Bool
  | none => true
  | some n => n == 0

/-- JS `String.prototype.slice(-4)`: the last four characters (the whole
string when shorter). -/
def sliceNeg4 (s : String) : String :=
  ⟨s.data.drop (s.data.length - 4)⟩

/-- JS `String.prototype.toLowerCase()` (character-wise lowering; the
source only feeds it user names, treated here at ASCII fidelity). -/
def jsToLower (s : String) : String := ⟨s.data.map Char.toLower⟩

/-- JS `String.prototype.trim()`: strip whitespace from both ends. -/
def jsTrim (s : String) : String :=
  ⟨((s.data.dropWhile Char.isWhitespace).reverse.dropWhile Char.isWhitespace).reverse⟩

/-- JS `s.startsWith(p)`. -/
def jsStartsWith (s p : String) : Bool := p.data.isPrefixOf s.data

/-- JS `s.split(sep)` for a one-character separator. -/
def splitOnChar (sep : Char) : List Char → List (List Char)
  | [] => [[]]
  | c :: cs =>
    match splitOnChar sep cs with
    | [] => [[]]
    | g :: gs => if c == sep then [] :: g :: gs else (c :: g) :: gs

def jsSplit (sep : Char) (s : String) : List String :=
  (splitOnChar sep s.data).map (fun l => ⟨l⟩)

/-! ### Ordered association lists (the embedding of JS `Map` / plain objects)

JS `Map.set` updates an existing key in place and appends a new key at the
end; `Map.delete` removes the key; `Map.get` returns the value of the first
(in a well-formed map: only) binding.  Plain objects used as dictionaries
(`db.weeklyLeaderboard`) behave the same way for string keys. -/

/-- `Map.get` / property read: the value bound to `k`, if any. -/
def getA (k : String) : List (String × β) → Option β
  | [] => none
  | (k₁, v) :: m => if k₁ == k then some v else getA k m

/-- `Map.set` / property write: replace the binding of `k` in place, or
append a fresh binding at the end. -/
def setA (k : String) (v : β) : List (String × β) → List (String × β)
  | [] => [(k, v)]
  | (k₁, v₁) :: m => if k₁ == k then (k, v) :: m else (k₁, v₁) :: setA k v m

/-- `Map.delete`: remove the binding of `k`. -/
def delA (k : String) : List (String × β) → List (String × β)
  | [] => []
  | (k₁, v₁) :: m => if k₁ == k then m else (k₁, v₁) :: delA k m

/-- The JS `arr.findIndex(...)` / mutate-the-found-element idiom: apply `f`
to the first element satisfying `p` and leave the rest unchanged (a no-op
when no element matches, as in `const e = arr.find(...); if (e) e.x = v`). -/
def updateFirst (p : α → Bool) (f : α → α) : List α → List α
  | [] => []
  | x :: xs => if p x then f x :: xs else x :: updateFirst p f xs

/-- The JS `findIndex`-then-update-or-`push` idiom of the leaderboard
routines: apply `f` to the first element satisfying `p`, or append `mk`
when no element matches. -/
def upsertBy (p : α → Bool) (f : α → α) (mk : α) : List α → List α
  | [] => [mk]
  | x :: xs => if p x then f x :: xs else x :: upsertBy p f mk xs

/-- JS `arr.sort((a, b) => sc(b) - sc(a))`: stable sort, descending by the
integer sort key `sc`.  `Array.prototype.sort` is a stable sort, and a
stable sort for a total preorder has a unique result, so the choice of
stable sorting algorithm is immaterial; insertion sort is used here. -/
def sortByDesc (sc : α → Int) (l : List α) : List α :=
  l.insertionSort (fun a b => sc b ≤ sc a)

/-! ## v3.1: global leaderboard -/

namespace V31

/-- An entry of the v3.1 global leaderboard array (`db.leaderboard`). -/
structure GEntry where
  odairy : String
  username : String
  score : Int
  avatar : String
  deriving Repr, DecidableEq

/-- `updateLeaderboard(odairy, username, score)` of v3.1.  Guard: falsy
identity or score is a no-op.  Otherwise: find the entry by identity;
if found, raise the score only when strictly greater and always refresh
the name; if not found, push a fresh entry; then sort descending by score
and keep the top 100. -/
def updateLeaderboard (odairy : String) (username : Option String)
    (score : Option Int) (lb : List GEntry) : List GEntry :=
  if odairy == "" || intFalsy score then lb
  else
    let s := score.getD 0
    let displayName := strOr username ("Player_" ++ sliceNeg4 odairy)
    let lb₁ := upsertBy (fun e => e.odairy == odairy)
      (fun e => { e with
        score := if s > e.score then s else e.score
        username := displayName })
      { odairy := odairy, username := displayName, score := s, avatar := "🎮" }
      lb
    (sortByDesc (fun e => e.score) lb₁).take 100

/-! ### v3.1: payments and the webhook successful-payment branch -/

/-- A purchasable star package (`STAR_PACKAGES`, identical in v3.1 and
v3.5). -/
structure StarPackage where
  id : String
  stars : Int
  price : Int
  bonus : Int
  deriving Repr, DecidableEq

def STAR_PACKAGES : List StarPackage :=
  [ { id := "stars_100", stars := 100, price := 10, bonus := 0 },
    { id := "stars_500", stars := 500, price := 45, bonus := 50 },
    { id := "stars_1000", stars := 1000, price := 80, bonus := 200 },
    { id := "stars_5000", stars := 5000, price := 350, bonus := 1500 } ]

/-- The `from` object of an inbound Telegram message. -/
structure TgUser where
  id : Int
  username : Option String
  first_name : Option String
  last_name : Option String
  deriving Repr, DecidableEq

/-- The `successful_payment` object of an inbound Telegram message. -/
structure SuccessfulPayment where
  total_amount : Int
  currency : String
  invoice_payload : String
  deriving Repr, DecidableEq

/-- A v3.1 payment record as pushed onto `db.payments`. -/
structure PaymentRecord where
  odairy : String
  odairyNum : Int
  username : String
  telegramUsername : Option String
  firstName : String
  lastName : String
  amount : Int
  currency : String
  item : String
  timestamp : Int
  deriving Repr, DecidableEq

/-- A v3.1 permanent user record (`db.users` value), as created by the
heartbeat endpoint. -/
structure V31User where
  odairy : String
  username : String
  avatar : String
  firstName : String
  lastName : String
  firstSeen : Int
  lastSeen : Int
  gamesPlayed : Int
  highScore : Int
  totalSpent : Int
  totalStarsPurchased : Int
  telegramUsername : Option String
  deriving Repr, DecidableEq

structure Stats where
  totalUsers : Int
  totalGamesPlayed : Int
  totalRevenue : Int
  deriving Repr, DecidableEq

/-- An activity-log event.  The source stores an untyped JSON `data`
payload with each event; no claim reads it, so only the event type and
timestamp are carried. -/
structure Activity where
  type : String
  timestamp : Int
  deriving Repr, DecidableEq

/-- `addActivity`: prepend the event and cap the log at 200 entries. -/
def addActivity (type : String) (now : Int) (log : List Activity) : List Activity :=
  let log₁ := { type := type, timestamp := now : Activity } :: log
  if log₁.length > 200 then log₁.take 200 else log₁

/-- The v3.1 in-memory store (the fields the webhook touches; the
presence map is untouched by the webhook and omitted here). -/
structure DB31 where
  users : List (String × V31User)
  payments : List PaymentRecord
  leaderboard : List GEntry
  activityLog : List Activity
  stats : Stats
  deriving Repr, DecidableEq

/-- v3.1 `getDisplayName(userId, username, firstName, lastName)`:
username if truthy, else first and last name joined by a space, else
`Player_` followed by the last four digits of the id. -/
def getDisplayName (userId : Int) (username firstName lastName : Option String) : String :=
  match jsStr username with
  | some u => u
  | none =>
    match jsStr firstName with
    | some f =>
      match jsStr lastName with
      | some l => f ++ " " ++ l
      | none => f
    | none => "Player_" ++ sliceNeg4 (toString userId)

/-- The v3.1 webhook branch for `update.message.successful_payment`:
push a payment record (its `amount` is the update's `total_amount`),
add the amount to total revenue, refresh the payer's user record when it
exists, and for a `stars:` payload credit `stars + bonus` of the resolved
package to the payer's `totalStarsPurchased` — again only when the user
record exists.  Confirmation and admin messages are outbound bot calls
and `saveData()` is persistence; neither changes the store. -/
def handleSuccessfulPayment (now : Int) (u : TgUser) (p : SuccessfulPayment)
    (db : DB31) : DB31 :=
  let odairy := toString u.id
  let displayName := getDisplayName u.id u.username u.first_name u.last_name
  let record : PaymentRecord :=
    { odairy := odairy
      odairyNum := u.id
      username := displayName
      telegramUsername := jsStr u.username
      firstName := (jsStr u.first_name).getD ""
      lastName := (jsStr u.last_name).getD ""
      amount := p.total_amount
      currency := p.currency
      item := p.invoice_payload
      timestamp := now }
  let db₁ := { db with
    payments := db.payments ++ [record]
    stats := { db.stats with totalRevenue := db.stats.totalRevenue + p.total_amount } }
  let db₂ :=
    match getA odairy db₁.users with
    | some usr =>
      let usr₁ := { usr with
        totalSpent := usr.totalSpent + p.total_amount
        username := displayName }
      let usr₂ :=
        match jsStr u.username with
        | some tu => { usr₁ with telegramUsername := some tu }
        | none => usr₁
      { db₁ with users := setA odairy usr₂ db₁.users }
    | none => db₁
  let db₃ :=
    if jsStartsWith p.invoice_payload "stars:" then
      let packageId := ((jsSplit ':' p.invoice_payload).get? 1).getD ""
      match STAR_PACKAGES.find? (fun pk => pk.id == packageId),
            getA odairy db₂.users with
      | some pkg, some usr =>
        let usr₃ := { usr with
          totalStarsPurchased := usr.totalStarsPurchased + (pkg.stars + pkg.bonus) }
        { db₂ with users := setA odairy usr₃ db₂.users }
      | _, _ => db₂
    else db₂
  { db₃ with activityLog := addActivity "payment" now db₃.activityLog }

end V31

/-! ## v3.5: weekly and all-time leaderboards, usernames, presence, admin -/

namespace V35

/-- An entry of a weekly leaderboard bucket.  `username` and the cosmetic
fields are stored exactly as passed to the update routine, hence may be
absent (`undefined` in JS). -/
structure WEntry where
  odairy : String
  username : Option String
  score : Int
  avatar : String
  nameColor : Option String
  isVip : Option Bool
  isVVIP : Option Bool
  lastUpdated : Int
  deriving Repr, DecidableEq

/-- An entry of the all-time leaderboard (no `lastUpdated` field). -/
structure AEntry where
  odairy : String
  username : Option String
  score : Int
  avatar : String
  nameColor : Option String
  isVip : Option Bool
  isVVIP : Option Bool
  deriving Repr, DecidableEq

/-- A v3.5 permanent user record. -/
structure User where
  odairy : String
  username : String
  displayName : Option String
  nameColor : Option String
  isVip : Option Bool
  isVVIP : Option Bool
  avatar : String
  telegramUsername : Option String
  firstName : String
  lastName : String
  firstSeen : Int
  lastSeen : Int
  gamesPlayed : Int
  highScore : Int
  totalSpent : Int
  deriving Repr, DecidableEq

/-- A v3.5 online-presence entry. -/
structure OnlineUser where
  odairy : String
  username : String
  displayName : String
  nameColor : Option String
  isVip : Option Bool
  isVVIP : Option Bool
  avatar : String
  lastSeen : Int
  joinedAt : Int
  score : Int
  deriving Repr, DecidableEq

/-- The v3.5 in-memory store. -/
structure DB where
  onlineUsers : List (String × OnlineUser)
  users : List (String × User)
  usernames : List (String × String)
  payments : List V31.PaymentRecord
  weeklyLeaderboard : List (String × List WEntry)
  allTimeLeaderboard : List AEntry
  friends : List (String × List String)
  activityLog : List V31.Activity
  stats : V31.Stats
  currentWeek : String
  deriving Repr, DecidableEq

/-- The avatar used by the v3.5 leaderboard routines:
`db.users.get(odairy)?.avatar || the game emoji`. -/
def avatarOf (odairy : String) (users : List (String × User)) : String :=
  match getA odairy users with
  | some u => if u.avatar == "" then "🎮" else u.avatar
  | none => "🎮"

/-- `updateWeeklyLeaderboard(odairy, username, score, nameColor, isVip,
isVVIP)` of v3.5.  The current ISO week key (`getCurrentWeekKey()`) and
`Date.now()` are passed as the parameters `week` and `now`.  Guard: falsy
identity or score is a no-op (before the bucket is even created).
Otherwise the bucket for `week` (fresh and empty when absent) receives
the `findIndex`-update-or-push step, is sorted descending by score, and
is truncated to the top 100. -/
def updateWeeklyLeaderboard (week : String) (now : Int) (odairy : String)
    (username : Option String) (score : Option Int) (nameColor : Option String)
    (isVip isVVIP : Option Bool) (db : DB) : DB :=
  if odairy == "" || intFalsy score then db
  else
    let s := score.getD 0
    let lb := (getA week db.weeklyLeaderboard).getD []
    let avatar := avatarOf odairy db.users
    let lb₁ := upsertBy (fun e => e.odairy == odairy)
      (fun e => { e with
        score := if s > e.score then s else e.score
        username := username
        nameColor := nameColor
        isVip := isVip
        isVVIP := isVVIP
        avatar := avatar })
      { odairy := odairy, username := username, score := s, avatar := avatar,
        nameColor := nameColor, isVip := isVip, isVVIP := isVVIP,
        lastUpdated := now }
      lb
    let lb₂ := (sortByDesc (fun e => e.score) lb₁).take 100
    { db with weeklyLeaderboard := setA week lb₂ db.weeklyLeaderboard }

/-- `updateAllTimeLeaderboard(...)` of v3.5: same shape as the weekly
routine on `db.allTimeLeaderboard`, truncated to the top 500. -/
def updateAllTimeLeaderboard (odairy : String) (username : Option String)
    (score : Option Int) (nameColor : Option String) (isVip isVVIP : Option Bool)
    (db : DB) : DB :=
  if odairy == "" || intFalsy score then db
  else
    let s := score.getD 0
    let avatar := avatarOf odairy db.users
    let lb₁ := upsertBy (fun e => e.odairy == odairy)
      (fun e => { e with
        score := if s > e.score then s else e.score
        username := username
        nameColor := nameColor
        isVip := isVip
        isVVIP := isVVIP
        avatar := avatar })
      { odairy := odairy, username := username, score := s, avatar := avatar,
        nameColor := nameColor, isVip := isVip, isVVIP := isVVIP }
      db.allTimeLeaderboard
    { db with allTimeLeaderboard := (sortByDesc (fun e => e.score) lb₁).take 500 }

/-- `cleanupOffline()` of v3.5: delete every presence entry whose
`lastSeen` is more than 300000 ms before `now`. -/
def cleanupOffline (now : Int) (onl : List (String × OnlineUser)) :
    List (String × OnlineUser) :=
  onl.filter (fun x => !(now - x.2.lastSeen > 300000 : Bool))

/-- `checkNewWeek()` of v3.5, with the freshly computed week key passed as
`week`: on a key change record the new key and create an empty bucket for
it when absent (`saveData()` is external). -/
def checkNewWeek (week : String) (db : DB) : DB :=
  if db.currentWeek != week then
    let db₁ := { db with currentWeek := week }
    if getA week db₁.weeklyLeaderboard = none then
      { db₁ with weeklyLeaderboard := setA week [] db₁.weeklyLeaderboard }
    else db₁
  else db

/-! ### Username system -/

/-- GET `/api/check-username`: normalize the query (`toLowerCase` then
`trim`, with a missing query read as the empty string) and report taken
only when the normalized name has at least 2 characters and is bound in
the registry. -/
def checkUsername (name : Option String) (usernames : List (String × String)) : Bool :=
  let n := jsTrim (jsToLower (name.getD ""))
  n.length ≥ 2 && (getA n usernames).isSome

/-- The outcome of POST `/api/register-username`: 400 Missing, 400 Taken
(the conflict error), or success. -/
inductive RegResult
  | missing
  | taken
  | success
  deriving Repr, DecidableEq

/-- POST `/api/register-username` of v3.5 (the current week key passed as
`week`).  Reject a missing identity or name; reject with the conflict
error when the normalized name is bound to a different identity; else,
when the identity has a user record, release the lowercased previous
display name and store the new display name and Telegram username; bind
the normalized name; and rewrite the entry username in the current week
bucket and in the all-time board (only there). -/
def registerUsername (week : String) (odairy username : String)
    (telegramUsername : Option String) (db : DB) : DB × RegResult :=
  if odairy == "" || username == "" then (db, .missing)
  else
    let norm := jsTrim (jsToLower username)
    let id := odairy
    if (match getA norm db.usernames with
        | some owner => owner != id
        | none => false) then (db, .taken)
    else
      let db₁ :=
        match getA id db.users with
        | some u =>
          let db₀ :=
            match jsStr u.displayName with
            | some old => { db with usernames := delA (jsToLower old) db.usernames }
            | none => db
          let u₁ := { u with displayName := some username,
                             telegramUsername := telegramUsername }
          { db₀ with users := setA id u₁ db₀.users }
        | none => db
      let db₂ := { db₁ with usernames := setA norm id db₁.usernames }
      let db₃ :=
        match getA week db₂.weeklyLeaderboard with
        | some b =>
          let b₁ := updateFirst (fun e : WEntry => e.odairy == id)
            (fun e => { e with username := some username }) b
          { db₂ with weeklyLeaderboard := setA week b₁ db₂.weeklyLeaderboard }
        | none => db₂
      let at₁ := updateFirst (fun e : AEntry => e.odairy == id)
        (fun e => { e with username := some username }) db₃.allTimeLeaderboard
      let db₄ := { db₃ with allTimeLeaderboard := at₁ }
      (db₄, .success)

/-- The guard of `registerUsername`, and its conflict check, as they occur
in the definition. -/
def regGuard (odairy username : String) : Bool :=
  odairy == "" || username == ""

def regConflict (odairy : String) (norm : String)
    (usernames : List (String × String)) : Bool :=
  match getA norm usernames with
  | some owner => owner != odairy
  | none => false

/-! ### Admin surface -/

/-- The result of a password-gated endpoint: 401, or the handler's own
response. -/
inductive AdminResult (ρ : Type) where
  | unauthorized
  | res (r : ρ)
  deriving Repr, DecidableEq

/-- The `adminAuth` middleware: the supplied password (header or query,
absent as `none`) must equal the configured password exactly, otherwise
401 is returned and the handler never runs. -/
def adminAuth (adminPassword : String) (pw : Option String)
    (handler : DB → DB × ρ) (db : DB) : DB × AdminResult ρ :=
  if pw == some adminPassword then
    let r := handler db
    (r.1, .res r.2)
  else (db, .unauthorized)

/-- GET `/api/admin/dashboard` of v3.5 (behind `adminAuth`): sweep the
presence table, run the week rollover check, and serve projections of the
store.  Of the response only the presence listing (the online users
sorted by most recent `lastSeen`) is modelled; the other response fields
are pure reads that no claim mentions. -/
def adminDashboard (week : String) (now : Int) (db : DB) :
    DB × List OnlineUser :=
  let db₁ := { db with onlineUsers := cleanupOffline now db.onlineUsers }
  let db₂ := checkNewWeek week db₁
  (db₂, sortByDesc (fun u => u.lastSeen) (db₂.onlineUsers.map (fun x => x.2)))

/-- GET `/api/admin/users` of v3.5 (behind `adminAuth`): serve the user
table.  It performs no presence sweep and no store mutation. -/
def adminUsers (db : DB) : DB × List User :=
  (db, db.users.map (fun x => x.2))

/-- POST `/api/admin/reset-all` of v3.5 (behind `adminAuth`): without the
exact confirmation string the request is rejected (400) and nothing
changes; with it, every table is cleared and the counters are zeroed
(`currentWeek` is kept). -/
def resetAllHandler (confirm : Option String) (db : DB) : DB × Bool :=
  if confirm != some "RESET_ALL_DATA" then (db, false)
  else
    ({ db with
        users := []
        usernames := []
        payments := []
        weeklyLeaderboard := []
        allTimeLeaderboard := []
        friends := []
        activityLog := []
        onlineUsers := []
        stats := { totalUsers := 0, totalGamesPlayed := 0, totalRevenue := 0 } },
      true)

end V35

/-! ## Derived notions used by the properties -/

/-- The stored score of an identity on the v3.1 global board, if any. -/
def V31.scoreOf (k : String) (lb : List V31.GEntry) : Option Int :=
  (lb.find? (fun e => e.odairy == k)).map (fun e => e.score)

/-- The stored score of an identity in a weekly bucket, if any. -/
def V35.wScoreOf (k : String) (lb : List V35.WEntry) : Option Int :=
  (lb.find? (fun e => e.odairy == k)).map (fun e => e.score)

/-- The stored score of an identity on the all-time board, if any. -/
def V35.aScoreOf (k : String) (lb : List V35.AEntry) : Option Int :=
  (lb.find? (fun e => e.odairy == k)).map (fun e => e.score)

/-- One leaderboard submission: the request fields passed to the update
routines, together with the wall-clock data (`Date.now()` and the current
ISO week key) at the time it is processed. -/
structure Sub where
  odairy : String
  username : Option String
  score : Option Int
  nameColor : Option String
  isVip : Option Bool
  isVVIP : Option Bool
  week : String
  now : Int
  deriving Repr, DecidableEq

/-- Fold a sequence of submissions through the v3.1 global board,
starting from the empty board of `defaultData`. -/
def V31.runSubs (subs : List Sub) : List V31.GEntry :=
  subs.foldl (fun lb s => V31.updateLeaderboard s.odairy s.username s.score lb) []

/-- One v3.5 submission as performed by game-end and leaderboard-submit:
the weekly update followed by the all-time update. -/
def V35.applySub (db : V35.DB) (s : Sub) : V35.DB :=
  V35.updateAllTimeLeaderboard s.odairy s.username s.score s.nameColor s.isVip s.isVVIP
    (V35.updateWeeklyLeaderboard s.week s.now s.odairy s.username s.score s.nameColor
      s.isVip s.isVVIP db)

/-- Fold a sequence of submissions through the v3.5 store. -/
def V35.runSubs (db₀ : V35.DB) (subs : List Sub) : V35.DB :=
  subs.foldl V35.applySub db₀

/-- The empty v3.5 store of `defaultData` (the current week key is
computed from the clock and passed in). -/
def V35.initDB (week : String) : V35.DB :=
  { onlineUsers := [], users := [], usernames := [], payments := [],
    weeklyLeaderboard := [], allTimeLeaderboard := [], friends := [],
    activityLog := [],
    stats := { totalUsers := 0, totalGamesPlayed := 0, totalRevenue := 0 },
    currentWeek := week }

/-! ## Concrete stores and inputs used by witnesses and counterexamples -/

/-- An empty v3.5 store. -/
def dbEx : V35.DB := V35.initDB "2025-W41"

/-- A presence entry last seen at time 0. -/
def staleEntry : V35.OnlineUser :=
  { odairy := "1", username := "P", displayName := "P", nameColor := none,
    isVip := none, isVVIP := none, avatar := "🎮", lastSeen := 0,
    joinedAt := 0, score := 0 }

/-- A store holding only the stale presence entry. -/
def staleDb : V35.DB := { dbEx with onlineUsers := [("1", staleEntry)] }

/-- A v3.1 global board already at its capacity of 100, every entry with
score 50. -/
def fullBoard : List V31.GEntry :=
  (List.range 100).map (fun i =>
    { odairy := toString i, username := "P", score := 50, avatar := "x" })

/-- A Telegram payer with id 7 and no profile names. -/
def tgU7 : V31.TgUser := { id := 7, username := none, first_name := none, last_name := none }

/-- A successful payment carrying the stars_100 payload but a total amount
of 999 (the webhook performs no validation of the amount). -/
def pay999 : V31.SuccessfulPayment :=
  { total_amount := 999, currency := "XTR", invoice_payload := "stars:stars_100:7" }

/-- A successful payment of the stars_100 invoice at its price of 10. -/
def pay10 : V31.SuccessfulPayment :=
  { total_amount := 10, currency := "XTR", invoice_payload := "stars:stars_100:7" }

/-- A v3.1 user record for id 7 with no purchased stars yet. -/
def v31u7 : V31.V31User :=
  { odairy := "7", username := "P", avatar := "a", firstName := "", lastName := "",
    firstSeen := 0, lastSeen := 0, gamesPlayed := 0, highScore := 0, totalSpent := 0,
    totalStarsPurchased := 0, telegramUsername := none }

/-- A v3.1 store holding only user 7. -/
def db31Ex : V31.DB31 :=
  { users := [("7", v31u7)], payments := [], leaderboard := [], activityLog := [],
    stats := { totalUsers := 1, totalGamesPlayed := 0, totalRevenue := 0 } }

/-- A weekly entry for identity 1 under the display name Old. -/
def wOld : V35.WEntry :=
  { odairy := "1", username := some "Old", score := 50, avatar := "x",
    nameColor := none, isVip := none, isVVIP := none, lastUpdated := 0 }

/-- An all-time entry for identity 1 under the display name Old. -/
def aOld : V35.AEntry :=
  { odairy := "1", username := some "Old", score := 50, avatar := "x",
    nameColor := none, isVip := none, isVVIP := none }

/-- A v3.5 user record for identity 1. -/
def userEx : V35.User :=
  { odairy := "1", username := "X", displayName := some "Alice", nameColor := none,
    isVip := none, isVVIP := none, avatar := "a", telegramUsername := none,
    firstName := "", lastName := "", firstSeen := 0, lastSeen := 0,
    gamesPlayed := 0, highScore := 0, totalSpent := 0 }

/-- An otherwise empty store in which identity 1 has a user record. -/
def dbC4 : V35.DB := { dbEx with users := [("1", userEx)] }

/-- A store in week 2025-W41 whose leaderboard history also holds a bucket
for the earlier week 2025-W40, both buckets and the all-time board naming
identity 1 as Old. -/
def dbC3 : V35.DB :=
  { onlineUsers := [], users := [("1", userEx)], usernames := [], payments := [],
    weeklyLeaderboard := [("2025-W40", [wOld]), ("2025-W41", [wOld])],
    allTimeLeaderboard := [aOld], friends := [], activityLog := [],
    stats := { totalUsers := 1, totalGamesPlayed := 0, totalRevenue := 0 },
    currentWeek := "2025-W41" }

/-! ## Lemmas about the embedding primitives -/

section AssocLemmas

variable {β : Type}

theorem getA_setA_self (k : String) (v : β) (m : List (String × β)) :
    getA k (setA k v m) = some v := by
  induction m with
  | nil => simp [getA, setA]
  | cons x m ih =>
    obtain ⟨k₁, v₁⟩ := x
    by_cases h : k₁ = k
    · subst h
      simp [setA, getA]
    · simp [setA, getA, h, ih]

theorem getA_setA_ne {k k₀ : String} (h : k₀ ≠ k) (v : β) (m : List (String × β)) :
    getA k₀ (setA k v m) = getA k₀ m := by
  induction m with
  | nil => simp [setA, getA, Ne.symm h]
  | cons x m ih =>
    obtain ⟨k₁, v₁⟩ := x
    by_cases h₁ : k₁ = k
    · subst h₁
      simp [setA, getA, Ne.symm h]
    · simp [setA, getA, h₁, ih]

theorem getA_eq_none_of_not_mem {k : String} {m : List (String × β)}
    (h : k ∉ m.map Prod.fst) : getA k m = none := by
  induction m with
  | nil => rfl
  | cons x m ih =>
    obtain ⟨k₁, v₁⟩ := x
    simp only [List.map_cons, List.mem_cons, not_or] at h
    have h₁ : ¬ k₁ = k := fun hh => h.1 hh.symm
    simp [getA, h₁, ih h.2]

theorem getA_isSome_iff {k : String} {m : List (String × β)} :
    (getA k m).isSome ↔ k ∈ m.map Prod.fst := by
  induction m with
  | nil => simp [getA]
  | cons x m ih =>
    obtain ⟨k₁, v₁⟩ := x
    by_cases h : k₁ = k
    · subst h
      simp [getA]
    · simp [getA, h, ih, Ne.symm h]

theorem not_mem_keys_of_getA_eq_none {k : String} {m : List (String × β)}
    (h : getA k m = none) : k ∉ m.map Prod.fst := by
  intro hmem
  have h₁ := getA_isSome_iff.mpr hmem
  rw [h] at h₁
  simp at h₁

theorem keys_setA_of_getA_eq_none {k : String} {m : List (String × β)}
    (h : getA k m = none) (v : β) :
    (setA k v m).map Prod.fst = m.map Prod.fst ++ [k] := by
  induction m with
  | nil => simp [setA]
  | cons x m ih =>
    obtain ⟨k₁, v₁⟩ := x
    by_cases h₁ : k₁ = k
    · subst h₁
      simp [getA] at h
    · simp only [getA, beq_iff_eq, h₁, if_false] at h
      simp [setA, h₁, ih h]

theorem keys_setA_of_getA_isSome {k : String} {m : List (String × β)}
    (h : (getA k m).isSome) (v : β) :
    (setA k v m).map Prod.fst = m.map Prod.fst := by
  induction m with
  | nil => simp [getA] at h
  | cons x m ih =>
    obtain ⟨k₁, v₁⟩ := x
    by_cases h₁ : k₁ = k
    · subst h₁
      simp [setA]
    · simp only [getA, h₁, beq_iff_eq, if_false] at h
      simp [setA, h₁, ih h]

theorem nodup_keys_setA {k : String} {m : List (String × β)}
    (hnd : (m.map Prod.fst).Nodup) (v : β) :
    ((setA k v m).map Prod.fst).Nodup := by
  cases h : getA k m with
  | none =>
    rw [keys_setA_of_getA_eq_none h]
    have hk := not_mem_keys_of_getA_eq_none h
    simp [List.nodup_append, hnd, hk]
  | some v₀ =>
    rw [keys_setA_of_getA_isSome (by simp [h]) v]
    exact hnd

theorem delA_sublist (k : String) : ∀ m : List (String × β), List.Sublist (delA k m) m
  | [] => List.Sublist.slnil
  | (k₁, v₁) :: m => by
    by_cases h : k₁ = k
    · have hb : (k₁ == k) = true := beq_iff_eq.mpr h
      simp only [delA, hb, if_true]
      exact List.Sublist.cons (k₁, v₁) (List.Sublist.refl m)
    · simpa [delA, h] using List.Sublist.cons₂ (k₁, v₁) (delA_sublist k m)

theorem nodup_keys_delA {k : String} {m : List (String × β)}
    (hnd : (m.map Prod.fst).Nodup) : ((delA k m).map Prod.fst).Nodup :=
  hnd.sublist ((delA_sublist k m).map Prod.fst)

theorem getA_delA_self {k : String} {m : List (String × β)}
    (hnd : (m.map Prod.fst).Nodup) : getA k (delA k m) = none := by
  induction m with
  | nil => rfl
  | cons x m ih =>
    obtain ⟨k₁, v₁⟩ := x
    simp only [List.map_cons, List.nodup_cons] at hnd
    by_cases h : k₁ = k
    · subst h
      simpa [delA] using getA_eq_none_of_not_mem hnd.1
    · simp [delA, h, getA, ih hnd.2]

theorem getA_delA_ne {k k₀ : String} (h : k₀ ≠ k) (m : List (String × β)) :
    getA k₀ (delA k m) = getA k₀ m := by
  induction m with
  | nil => rfl
  | cons x m ih =>
    obtain ⟨k₁, v₁⟩ := x
    by_cases h₁ : k₁ = k
    · subst h₁
      simp [delA, getA, Ne.symm h]
    · simp [delA, h₁, getA, ih]

end AssocLemmas

section UpsertLemmas

variable {α : Type} {p : α → Bool} {f : α → α} {mk : α} {l : List α}

theorem updateFirst_eq_of_find?_eq_none (h : l.find? p = none) :
    updateFirst p f l = l := by
  induction l with
  | nil => rfl
  | cons x xs ih =>
    rw [List.find?_cons] at h
    cases hx : p x with
    | true => simp [hx] at h
    | false =>
      simp only [hx] at h
      simp [updateFirst, hx, ih h]

theorem updateFirst_decomp_of_find?_eq_some (f : α → α) {e : α}
    (h : l.find? p = some e) :
    ∃ l₁ l₂, l = l₁ ++ e :: l₂ ∧ updateFirst p f l = l₁ ++ f e :: l₂ ∧
      ∀ x ∈ l₁, p x = false := by
  induction l with
  | nil => simp at h
  | cons x xs ih =>
    rw [List.find?_cons] at h
    cases hx : p x with
    | true =>
      simp only [hx, Option.some.injEq] at h
      subst h
      exact ⟨[], xs, by simp [updateFirst, hx]⟩
    | false =>
      simp only [hx] at h
      obtain ⟨l₁, l₂, h₁, h₂, h₃⟩ := ih h
      refine ⟨x :: l₁, l₂, by simp [h₁], ?_, ?_⟩
      · simp [updateFirst, hx, h₂]
      · intro y hy
        rcases List.mem_cons.mp hy with hy | hy
        · subst hy; exact hx
        · exact h₃ y hy

theorem upsertBy_eq_append_of_find?_eq_none (f : α → α) (mk : α)
    (h : l.find? p = none) :
    upsertBy p f mk l = l ++ [mk] := by
  induction l with
  | nil => rfl
  | cons x xs ih =>
    rw [List.find?_cons] at h
    cases hx : p x with
    | true => simp [hx] at h
    | false =>
      simp only [hx] at h
      simp [upsertBy, hx, ih h]

theorem upsertBy_decomp_of_find?_eq_some (f : α → α) (mk : α) {e : α}
    (h : l.find? p = some e) :
    ∃ l₁ l₂, l = l₁ ++ e :: l₂ ∧ upsertBy p f mk l = l₁ ++ f e :: l₂ ∧
      ∀ x ∈ l₁, p x = false := by
  induction l with
  | nil => simp at h
  | cons x xs ih =>
    rw [List.find?_cons] at h
    cases hx : p x with
    | true =>
      simp only [hx, Option.some.injEq] at h
      subst h
      exact ⟨[], xs, by simp [upsertBy, hx]⟩
    | false =>
      simp only [hx] at h
      obtain ⟨l₁, l₂, h₁, h₂, h₃⟩ := ih h
      refine ⟨x :: l₁, l₂, by simp [h₁], ?_, ?_⟩
      · simp [upsertBy, hx, h₂]
      · intro y hy
        rcases List.mem_cons.mp hy with hy | hy
        · subst hy; exact hx
        · exact h₃ y hy

/-- In a list with pairwise distinct keys, the first entry found by key is
the unique member with that key. -/
theorem find?_eq_of_nodup_keys {key : α → String} {k : String} {e : α}
    (hnd : (l.map key).Nodup) (he : e ∈ l) (hk : key e = k) :
    l.find? (fun x => key x == k) = some e := by
  induction l with
  | nil => simp at he
  | cons x xs ih =>
    simp only [List.map_cons, List.nodup_cons] at hnd
    rcases List.mem_cons.mp he with he | he
    · subst he
      simp [List.find?_cons, hk]
    · have hxk : (key x == k) = false := by
        refine beq_eq_false_iff_ne.mpr (fun h₁ => hnd.1 ?_)
        rw [h₁, ← hk]
        exact List.mem_map_of_mem key he
      rw [List.find?_cons, hxk]
      exact ih hnd.2 he

end UpsertLemmas

section SortLemmas

variable {α : Type} (sc : α → Int)

theorem sortByDesc_perm (l : List α) : List.Perm (sortByDesc sc l) l :=
  List.perm_insertionSort _ l

theorem sortByDesc_sorted (l : List α) :
    (sortByDesc sc l).Sorted (fun a b => sc b ≤ sc a) := by
  haveI : IsTotal α (fun a b => sc b ≤ sc a) := ⟨fun a b => le_total (sc b) (sc a)⟩
  haveI : IsTrans α (fun a b => sc b ≤ sc a) := ⟨fun a b c h₁ h₂ => le_trans h₂ h₁⟩
  exact List.sorted_insertionSort _ l

end SortLemmas

section BoardLemmas

variable {α : Type}

/-- Keys of an upsert step on a board that already holds the key. -/
theorem keys_upsertBy_of_found {key : α → String} {k : String} {f : α → α}
    {mk : α} {l : List α} {e : α}
    (hkf : ∀ x, key (f x) = key x)
    (h : l.find? (fun x => key x == k) = some e) :
    (upsertBy (fun x => key x == k) f mk l).map key = l.map key := by
  obtain ⟨l₁, l₂, h₁, h₂, _⟩ := upsertBy_decomp_of_find?_eq_some f mk h
  subst h₁
  simp [h₂, hkf]

/-- An upsert step keeps board keys pairwise distinct. -/
theorem nodup_keys_upsertBy {key : α → String} {k : String} {f : α → α}
    {mk : α} {l : List α}
    (hkf : ∀ x, key (f x) = key x) (hkm : key mk = k)
    (hnd : (l.map key).Nodup) :
    ((upsertBy (fun x => key x == k) f mk l).map key).Nodup := by
  cases hfind : l.find? (fun x => key x == k) with
  | none =>
    rw [upsertBy_eq_append_of_find?_eq_none f mk hfind, List.map_append]
    have hknone : k ∉ l.map key := by
      intro hmem
      obtain ⟨x, hx, hxk⟩ := List.mem_map.mp hmem
      have hfx := List.find?_eq_none.mp hfind x hx
      simp [hxk] at hfx
    refine List.nodup_append.mpr ⟨hnd, by simp, ?_⟩
    intro a ha hak
    simp only [List.map_cons, List.map_nil, List.mem_singleton] at hak
    rw [hak, hkm] at ha
    exact hknone ha
  | some e =>
    rw [keys_upsertBy_of_found hkf hfind]
    exact hnd

/-- The common step of every leaderboard update routine — upsert by key,
sort descending by score, truncate to the capacity — stores, for the
submitted key, the maximum of the previous and the submitted score,
provided the board keys are pairwise distinct, the board is within
capacity, and (for a fresh key) strictly below capacity. -/
theorem board_step_lookup (key : α → String) (sc : α → Int) (k : String)
    (s : Int) (f : α → α) (mk : α) (cap : Nat) (l : List α)
    (hkf : ∀ x, key (f x) = key x) (hsf : ∀ x, sc (f x) = max (sc x) s)
    (hkm : key mk = k) (hsm : sc mk = s)
    (hnd : (l.map key).Nodup) (hlen : l.length ≤ cap)
    (hroom : l.find? (fun x => key x == k) = none → l.length < cap) :
    (((sortByDesc sc (upsertBy (fun x => key x == k) f mk l)).take cap).find?
        (fun x => key x == k)).map sc
      = some (((l.find? (fun x => key x == k)).map sc).elim s (fun q => max q s)) := by
  have hndu := nodup_keys_upsertBy hkf hkm hnd
  have hperm := sortByDesc_perm sc (upsertBy (fun x => key x == k) f mk l)
  have hndsorted :
      ((sortByDesc sc (upsertBy (fun x => key x == k) f mk l)).map key).Nodup :=
    (List.Perm.nodup_iff (hperm.map key)).mpr hndu
  cases hfind : l.find? (fun x => key x == k) with
  | none =>
    have hup := upsertBy_eq_append_of_find?_eq_none f mk hfind
    have hlen2 :
        (sortByDesc sc (upsertBy (fun x => key x == k) f mk l)).length ≤ cap := by
      rw [hperm.length_eq, hup, List.length_append, List.length_singleton]
      exact hroom hfind
    rw [List.take_of_length_le hlen2]
    have hmem : mk ∈ sortByDesc sc (upsertBy (fun x => key x == k) f mk l) := by
      rw [hperm.mem_iff, hup]
      exact List.mem_append_right l (List.mem_singleton_self mk)
    rw [find?_eq_of_nodup_keys hndsorted hmem hkm]
    simp [hsm]
  | some e =>
    obtain ⟨l₁, l₂, hl, hup, _⟩ := upsertBy_decomp_of_find?_eq_some f mk hfind
    have hlen2 :
        (sortByDesc sc (upsertBy (fun x => key x == k) f mk l)).length ≤ cap := by
      rw [hperm.length_eq, hup]
      have : l.length = (l₁ ++ f e :: l₂).length := by rw [hl]; simp
      rw [← this]
      exact hlen
    rw [List.take_of_length_le hlen2]
    have hmem : f e ∈ sortByDesc sc (upsertBy (fun x => key x == k) f mk l) := by
      rw [hperm.mem_iff, hup]
      exact List.mem_append_right l₁ (List.mem_cons_self (f e) l₂)
    have hkey_e : key e = k := by
      have hpe := List.find?_some hfind
      simpa using hpe
    rw [find?_eq_of_nodup_keys hndsorted hmem (by rw [hkf]; exact hkey_e)]
    simp [hsf]

/-- The common step keeps board keys pairwise distinct, through the sort
(a permutation) and the truncation (a sublist). -/
theorem board_step_keys_nodup (key : α → String) (sc : α → Int) (k : String)
    (f : α → α) (mk : α) (cap : Nat) (l : List α)
    (hkf : ∀ x, key (f x) = key x) (hkm : key mk = k)
    (hnd : (l.map key).Nodup) :
    (((sortByDesc sc (upsertBy (fun x => key x == k) f mk l)).take cap).map key).Nodup := by
  have hndu := nodup_keys_upsertBy hkf hkm hnd
  have hperm := sortByDesc_perm sc (upsertBy (fun x => key x == k) f mk l)
  have hndsorted := (List.Perm.nodup_iff (hperm.map key)).mpr hndu
  exact hndsorted.sublist ((List.take_sublist cap _).map key)

/-- After the common step the board is sorted descending by score and
within the capacity, whatever the input board was. -/
theorem sortByDesc_take_sorted_len (sc : α → Int) (cap : Nat) (l : List α) :
    ((sortByDesc sc l).take cap).Sorted (fun a b => sc b ≤ sc a) ∧
      ((sortByDesc sc l).take cap).length ≤ cap := by
  constructor
  · exact List.Pairwise.sublist (List.take_sublist cap _) (sortByDesc_sorted sc l)
  · rw [List.length_take]
    exact min_le_left cap _

end BoardLemmas

section UpdateFirstFind

variable {α : Type} {p : α → Bool} {f : α → α} {l : List α} {e : α}

/-- Updating the first match rewrites exactly the entry that a search by
the same predicate returns. -/
theorem find?_updateFirst_of_found (hpf : ∀ x, p (f x) = p x)
    (h : l.find? p = some e) :
    (updateFirst p f l).find? p = some (f e) := by
  obtain ⟨l₁, l₂, h₁, h₂, h₃⟩ := updateFirst_decomp_of_find?_eq_some f h
  have hnone : l₁.find? p = none := List.find?_eq_none.mpr (by
    intro x hx
    simp [h₃ x hx])
  have hpe : p e = true := by
    have := List.find?_some h
    exact this
  rw [h₂, List.find?_append, hnone, Option.none_or, List.find?_cons]
  rw [hpf e, hpe]

end UpdateFirstFind

/-! ## Lemmas about the v3.5 routines -/

namespace V35

theorem checkNewWeek_onlineUsers (week : String) (db : DB) :
    (checkNewWeek week db).onlineUsers = db.onlineUsers := by
  rw [checkNewWeek]
  split
  · dsimp only
    split <;> rfl
  · rfl

theorem checkNewWeek_users (week : String) (db : DB) :
    (checkNewWeek week db).users = db.users := by
  rw [checkNewWeek]
  split
  · dsimp only
    split <;> rfl
  · rfl

/-- The weekly update routine never touches the all-time board. -/
theorem updateWeeklyLeaderboard_allTime (week : String) (now : Int)
    (odairy : String) (username : Option String) (score : Option Int)
    (nameColor : Option String) (isVip isVVIP : Option Bool) (db : DB) :
    (updateWeeklyLeaderboard week now odairy username score nameColor isVip
        isVVIP db).allTimeLeaderboard = db.allTimeLeaderboard := by
  rw [updateWeeklyLeaderboard]
  split <;> rfl

/-- The all-time update routine never touches the weekly buckets. -/
theorem updateAllTimeLeaderboard_weekly (odairy : String)
    (username : Option String) (score : Option Int) (nameColor : Option String)
    (isVip isVVIP : Option Bool) (db : DB) :
    (updateAllTimeLeaderboard odairy username score nameColor isVip isVVIP
        db).weeklyLeaderboard = db.weeklyLeaderboard := by
  rw [updateAllTimeLeaderboard]
  split <;> rfl

theorem registerUsername_eq_taken {week odairy username : String}
    {tg : Option String} {db : DB}
    (hg : regGuard odairy username = false)
    (hc : regConflict odairy (jsTrim (jsToLower username)) db.usernames = true) :
    registerUsername week odairy username tg db = (db, RegResult.taken) := by
  have hc₁ : (match getA (jsTrim (jsToLower username)) db.usernames with
      | some owner => owner != odairy
      | none => false) = true := hc
  rw [registerUsername]
  rw [show (odairy == "" || username == "") = false from hg]
  simp only [Bool.false_eq_true, if_false]
  rw [if_pos hc₁]

/-- The full effect of a successful username registration on each store
field: users gains the new display name, the registry releases the old
lowercased display name and binds the normalized new one, and exactly the
current week bucket and the all-time board have the entry of this
identity renamed. -/
theorem registerUsername_success_state (week : String) (tg : Option String)
    {odairy username : String} {db : DB}
    (hg : regGuard odairy username = false)
    (hc : regConflict odairy (jsTrim (jsToLower username)) db.usernames = false) :
    (registerUsername week odairy username tg db).2 = RegResult.success ∧
    (registerUsername week odairy username tg db).1.users =
      (match getA odairy db.users with
        | some u => setA odairy
            { u with displayName := some username, telegramUsername := tg } db.users
        | none => db.users) ∧
    (registerUsername week odairy username tg db).1.usernames =
      setA (jsTrim (jsToLower username)) odairy
        (match getA odairy db.users with
          | some u =>
            (match jsStr u.displayName with
              | some old => delA (jsToLower old) db.usernames
              | none => db.usernames)
          | none => db.usernames) ∧
    (registerUsername week odairy username tg db).1.weeklyLeaderboard =
      (match getA week db.weeklyLeaderboard with
        | some b => setA week (updateFirst (fun e => e.odairy == odairy)
            (fun e => { e with username := some username }) b) db.weeklyLeaderboard
        | none => db.weeklyLeaderboard) ∧
    (registerUsername week odairy username tg db).1.allTimeLeaderboard =
      updateFirst (fun e => e.odairy == odairy)
        (fun e => { e with username := some username }) db.allTimeLeaderboard := by
  have hc₁ : (match getA (jsTrim (jsToLower username)) db.usernames with
      | some owner => owner != odairy
      | none => false) = false := hc
  cases hu : getA odairy db.users with
  | none =>
    cases hw : getA week db.weeklyLeaderboard with
    | none =>
      simp only [registerUsername, show (odairy == "" || username == "") = false from hg,
        Bool.false_eq_true, if_false, hc₁, hu, hw]
      simp
    | some b =>
      simp only [registerUsername, show (odairy == "" || username == "") = false from hg,
        Bool.false_eq_true, if_false, hc₁, hu, hw]
      simp
  | some u =>
    cases hd : jsStr u.displayName with
    | none =>
      cases hw : getA week db.weeklyLeaderboard with
      | none =>
        simp only [registerUsername, show (odairy == "" || username == "") = false from hg,
          Bool.false_eq_true, if_false, hc₁, hu, hd, hw]
        simp
      | some b =>
        simp only [registerUsername, show (odairy == "" || username == "") = false from hg,
          Bool.false_eq_true, if_false, hc₁, hu, hd, hw]
        simp
    | some old =>
      cases hw : getA week db.weeklyLeaderboard with
      | none =>
        simp only [registerUsername, show (odairy == "" || username == "") = false from hg,
          Bool.false_eq_true, if_false, hc₁, hu, hd, hw]
        simp
      | some b =>
        simp only [registerUsername, show (odairy == "" || username == "") = false from hg,
          Bool.false_eq_true, if_false, hc₁, hu, hd, hw]
        simp

theorem registerUsername_success_inv {week odairy username : String}
    {tg : Option String} {db : DB}
    (h : (registerUsername week odairy username tg db).2 = RegResult.success) :
    regGuard odairy username = false ∧
      regConflict odairy (jsTrim (jsToLower username)) db.usernames = false := by
  by_cases hg : regGuard odairy username = true
  · rw [registerUsername] at h
    rw [show (odairy == "" || username == "") = true from hg] at h
    simp at h
  · have hg' : regGuard odairy username = false := by
      cases hgb : regGuard odairy username
      · rfl
      · exact absurd hgb hg
    refine ⟨hg', ?_⟩
    by_cases hc : regConflict odairy (jsTrim (jsToLower username)) db.usernames = true
    · rw [registerUsername_eq_taken hg' hc] at h
      simp at h
    · cases hcb : regConflict odairy (jsTrim (jsToLower username)) db.usernames
      · rfl
      · exact absurd hcb hc

end V35

/-! ## Invariant preservation for submission sequences -/

theorem updateLeaderboard_keys_nodup (odairy : String) (username : Option String)
    (score : Option Int) (lb : List V31.GEntry)
    (hnd : (lb.map (fun e => e.odairy)).Nodup) :
    ((V31.updateLeaderboard odairy username score lb).map (fun e => e.odairy)).Nodup := by
  by_cases hg : (odairy == "" || intFalsy score) = true
  · rw [V31.updateLeaderboard, if_pos hg]
    exact hnd
  · rw [V31.updateLeaderboard, if_neg hg]
    apply board_step_keys_nodup
    · intro x
      rfl
    · rfl
    · exact hnd

theorem updateLeaderboard_sorted_len (odairy : String) (username : Option String)
    (score : Option Int) (lb : List V31.GEntry)
    (hs : lb.Sorted (fun a b => b.score ≤ a.score)) (hl : lb.length ≤ 100) :
    (V31.updateLeaderboard odairy username score lb).Sorted
        (fun a b => b.score ≤ a.score) ∧
      (V31.updateLeaderboard odairy username score lb).length ≤ 100 := by
  by_cases hg : (odairy == "" || intFalsy score) = true
  · rw [V31.updateLeaderboard, if_pos hg]
    exact ⟨hs, hl⟩
  · rw [V31.updateLeaderboard, if_neg hg]
    exact sortByDesc_take_sorted_len _ 100 _

theorem updateWeeklyLeaderboard_weekly_nodup (week : String) (now : Int)
    (odairy : String) (username : Option String) (score : Option Int)
    (nameColor : Option String) (isVip isVVIP : Option Bool) (db : V35.DB)
    (hw : ∀ w b, getA w db.weeklyLeaderboard = some b →
      (b.map (fun e => e.odairy)).Nodup) :
    ∀ w b, getA w (V35.updateWeeklyLeaderboard week now odairy username score
        nameColor isVip isVVIP db).weeklyLeaderboard = some b →
      (b.map (fun e => e.odairy)).Nodup := by
  by_cases hg : (odairy == "" || intFalsy score) = true
  · rw [V35.updateWeeklyLeaderboard, if_pos hg]
    exact hw
  · rw [V35.updateWeeklyLeaderboard, if_neg hg]
    dsimp only
    intro w b hb
    by_cases hwk : w = week
    · subst hwk
      rw [getA_setA_self] at hb
      obtain rfl := Option.some.inj hb
      apply board_step_keys_nodup
      · intro x
        rfl
      · rfl
      · cases hbkt : getA w db.weeklyLeaderboard with
        | none => simp
        | some b₀ => simpa using hw w b₀ hbkt
    · rw [getA_setA_ne hwk] at hb
      exact hw w b hb

theorem updateWeeklyLeaderboard_weekly_sorted (week : String) (now : Int)
    (odairy : String) (username : Option String) (score : Option Int)
    (nameColor : Option String) (isVip isVVIP : Option Bool) (db : V35.DB)
    (hw : ∀ w b, getA w db.weeklyLeaderboard = some b →
      b.Sorted (fun a c => c.score ≤ a.score) ∧ b.length ≤ 100) :
    ∀ w b, getA w (V35.updateWeeklyLeaderboard week now odairy username score
        nameColor isVip isVVIP db).weeklyLeaderboard = some b →
      b.Sorted (fun a c => c.score ≤ a.score) ∧ b.length ≤ 100 := by
  by_cases hg : (odairy == "" || intFalsy score) = true
  · rw [V35.updateWeeklyLeaderboard, if_pos hg]
    exact hw
  · rw [V35.updateWeeklyLeaderboard, if_neg hg]
    dsimp only
    intro w b hb
    by_cases hwk : w = week
    · subst hwk
      rw [getA_setA_self] at hb
      obtain rfl := Option.some.inj hb
      exact sortByDesc_take_sorted_len _ 100 _
    · rw [getA_setA_ne hwk] at hb
      exact hw w b hb

theorem updateAllTimeLeaderboard_allTime_nodup (odairy : String)
    (username : Option String) (score : Option Int) (nameColor : Option String)
    (isVip isVVIP : Option Bool) (db : V35.DB)
    (ha : (db.allTimeLeaderboard.map (fun e => e.odairy)).Nodup) :
    ((V35.updateAllTimeLeaderboard odairy username score nameColor isVip isVVIP
        db).allTimeLeaderboard.map (fun e => e.odairy)).Nodup := by
  by_cases hg : (odairy == "" || intFalsy score) = true
  · rw [V35.updateAllTimeLeaderboard, if_pos hg]
    exact ha
  · rw [V35.updateAllTimeLeaderboard, if_neg hg]
    apply board_step_keys_nodup
    · intro x
      rfl
    · rfl
    · exact ha

theorem updateAllTimeLeaderboard_allTime_sorted (odairy : String)
    (username : Option String) (score : Option Int) (nameColor : Option String)
    (isVip isVVIP : Option Bool) (db : V35.DB)
    (ha : db.allTimeLeaderboard.Sorted (fun a c => c.score ≤ a.score) ∧
      db.allTimeLeaderboard.length ≤ 500) :
    (V35.updateAllTimeLeaderboard odairy username score nameColor isVip isVVIP
        db).allTimeLeaderboard.Sorted (fun a c => c.score ≤ a.score) ∧
      (V35.updateAllTimeLeaderboard odairy username score nameColor isVip isVVIP
        db).allTimeLeaderboard.length ≤ 500 := by
  by_cases hg : (odairy == "" || intFalsy score) = true
  · rw [V35.updateAllTimeLeaderboard, if_pos hg]
    exact ha
  · rw [V35.updateAllTimeLeaderboard, if_neg hg]
    exact sortByDesc_take_sorted_len _ 500 _

theorem runSubs_v35_nodup (subs : List Sub) (db : V35.DB)
    (hw : ∀ w b, getA w db.weeklyLeaderboard = some b →
      (b.map (fun e => e.odairy)).Nodup)
    (ha : (db.allTimeLeaderboard.map (fun e => e.odairy)).Nodup) :
    (∀ w b, getA w (V35.runSubs db subs).weeklyLeaderboard = some b →
      (b.map (fun e => e.odairy)).Nodup) ∧
    ((V35.runSubs db subs).allTimeLeaderboard.map (fun e => e.odairy)).Nodup := by
  induction subs generalizing db with
  | nil => exact ⟨hw, ha⟩
  | cons s rest ih =>
    have hw₁ := updateWeeklyLeaderboard_weekly_nodup s.week s.now s.odairy
      s.username s.score s.nameColor s.isVip s.isVVIP db hw
    have ha₁ : ((V35.updateWeeklyLeaderboard s.week s.now s.odairy s.username
        s.score s.nameColor s.isVip s.isVVIP db).allTimeLeaderboard.map
          (fun e => e.odairy)).Nodup := by
      rw [V35.updateWeeklyLeaderboard_allTime]
      exact ha
    have hw₂ : ∀ w b, getA w (V35.applySub db s).weeklyLeaderboard = some b →
        (b.map (fun e => e.odairy)).Nodup := by
      rw [V35.applySub, V35.updateAllTimeLeaderboard_weekly]
      exact hw₁
    have ha₂ := updateAllTimeLeaderboard_allTime_nodup s.odairy s.username
      s.score s.nameColor s.isVip s.isVVIP _ ha₁
    exact ih (V35.applySub db s) hw₂ ha₂

theorem runSubs_v35_sorted (subs : List Sub) (db : V35.DB)
    (hw : ∀ w b, getA w db.weeklyLeaderboard = some b →
      b.Sorted (fun a c => c.score ≤ a.score) ∧ b.length ≤ 100)
    (ha : db.allTimeLeaderboard.Sorted (fun a c => c.score ≤ a.score) ∧
      db.allTimeLeaderboard.length ≤ 500) :
    (∀ w b, getA w (V35.runSubs db subs).weeklyLeaderboard = some b →
      b.Sorted (fun a c => c.score ≤ a.score) ∧ b.length ≤ 100) ∧
    ((V35.runSubs db subs).allTimeLeaderboard.Sorted (fun a c => c.score ≤ a.score) ∧
      (V35.runSubs db subs).allTimeLeaderboard.length ≤ 500) := by
  induction subs generalizing db with
  | nil => exact ⟨hw, ha⟩
  | cons s rest ih =>
    have hw₁ := updateWeeklyLeaderboard_weekly_sorted s.week s.now s.odairy
      s.username s.score s.nameColor s.isVip s.isVVIP db hw
    have ha₁ : (V35.updateWeeklyLeaderboard s.week s.now s.odairy s.username
        s.score s.nameColor s.isVip s.isVVIP db).allTimeLeaderboard.Sorted
          (fun a c => c.score ≤ a.score) ∧
        (V35.updateWeeklyLeaderboard s.week s.now s.odairy s.username
        s.score s.nameColor s.isVip s.isVVIP db).allTimeLeaderboard.length ≤ 500 := by
      rw [V35.updateWeeklyLeaderboard_allTime]
      exact ha
    have hw₂ : ∀ w b, getA w (V35.applySub db s).weeklyLeaderboard = some b →
        b.Sorted (fun a c => c.score ≤ a.score) ∧ b.length ≤ 100 := by
      rw [V35.applySub, V35.updateAllTimeLeaderboard_weekly]
      exact hw₁
    have ha₂ := updateAllTimeLeaderboard_allTime_sorted s.odairy s.username
      s.score s.nameColor s.isVip s.isVVIP _ ha₁
    exact ih (V35.applySub db s) hw₂ ha₂

theorem runSubs_global_nodup_aux (subs : List Sub) (lb : List V31.GEntry)
    (hnd : (lb.map (fun e => e.odairy)).Nodup) :
    ((subs.foldl (fun lb s => V31.updateLeaderboard s.odairy s.username s.score lb)
        lb).map (fun e => e.odairy)).Nodup := by
  induction subs generalizing lb with
  | nil => exact hnd
  | cons s rest ih =>
    exact ih _ (updateLeaderboard_keys_nodup s.odairy s.username s.score lb hnd)

theorem runSubs_global_sorted_aux (subs : List Sub) (lb : List V31.GEntry)
    (h : lb.Sorted (fun a b => b.score ≤ a.score) ∧ lb.length ≤ 100) :
    (subs.foldl (fun lb s => V31.updateLeaderboard s.odairy s.username s.score lb)
        lb).Sorted (fun a b => b.score ≤ a.score) ∧
      (subs.foldl (fun lb s => V31.updateLeaderboard s.odairy s.username s.score lb)
        lb).length ≤ 100 := by
  induction subs generalizing lb with
  | nil => exact h
  | cons s rest ih =>
    exact ih _ (updateLeaderboard_sorted_len s.odairy s.username s.score lb h.1 h.2)

/-! ## Claims -/

/-- Claim C9: a submission whose identity is missing or whose score is
missing or zero leaves every leaderboard update routine — the v3.1 global
board, the v3.5 weekly map (every bucket) and the v3.5 all-time board —
a complete no-op: the store is returned unchanged, so no entry is created,
refreshed, reordered or dropped. -/
theorem falsy_submission_is_noop (odairy : String) (username : Option String)
    (score : Option Int) (nameColor : Option String) (isVip isVVIP : Option Bool)
    (week : String) (now : Int) (lb : List V31.GEntry) (db : V35.DB)
    (h : odairy = "" ∨ score = none ∨ score = some 0) :
    V31.updateLeaderboard odairy username score lb = lb ∧
    V35.updateWeeklyLeaderboard week now odairy username score nameColor isVip
      isVVIP db = db ∧
    V35.updateAllTimeLeaderboard odairy username score nameColor isVip isVVIP
      db = db := by
  have hguard : (odairy == "" || intFalsy score) = true := by
    rcases h with h | h | h <;> simp [h, intFalsy]
  refine ⟨?_, ?_, ?_⟩
  · rw [V31.updateLeaderboard, if_pos hguard]
  · rw [V35.updateWeeklyLeaderboard, if_pos hguard]
  · rw [V35.updateAllTimeLeaderboard, if_pos hguard]

theorem falsy_submission_is_noop_witness :
    ((some (0 : Int) = none ∨ some (0 : Int) = some 0) ∧
      V31.updateLeaderboard "1" (some "A") (some 0) [] = [] ∧
      V35.updateWeeklyLeaderboard "2025-W41" 5 "1" (some "A") (some 0) none none
        none dbEx = dbEx) := by
  have h := falsy_submission_is_noop "1" (some "A") (some 0) none none none
    "2025-W41" 5 [] dbEx (Or.inr (Or.inr rfl))
  exact ⟨Or.inr rfl, h.1, h.2.1⟩

/-- Claim C7: a request to any password-gated admin handler whose supplied
password differs from the configured one is answered 401 (unauthorized)
with the store unchanged; and a reset-all request with the correct
password but without the exact confirmation string RESET_ALL_DATA is
rejected, also with the store unchanged. -/
theorem admin_wrong_password_and_reset_guard (adminPassword : String)
    (pw : Option String) {ρ : Type} (handler : V35.DB → V35.DB × ρ)
    (db : V35.DB) (confirm : Option String)
    (hpw : pw ≠ some adminPassword) (hconf : confirm ≠ some "RESET_ALL_DATA") :
    V35.adminAuth adminPassword pw handler db
      = (db, V35.AdminResult.unauthorized) ∧
    V35.adminAuth adminPassword (some adminPassword)
        (V35.resetAllHandler confirm) db
      = (db, V35.AdminResult.res false) := by
  constructor
  · simp [V35.adminAuth, hpw]
  · simp [V35.adminAuth, V35.resetAllHandler, hconf]

theorem admin_wrong_password_and_reset_guard_witness :
    ((some "wrong" ≠ some "admin123") ∧
      (none ≠ some "RESET_ALL_DATA") ∧
      V35.adminAuth "admin123" (some "wrong")
          (fun d => (d, (0 : Nat))) staleDb
        = (staleDb, V35.AdminResult.unauthorized) ∧
      V35.adminAuth "admin123" (some "admin123")
          (V35.resetAllHandler none) staleDb
        = (staleDb, V35.AdminResult.res false)) := by
  have h := admin_wrong_password_and_reset_guard "admin123" (some "wrong")
    (fun d => (d, (0 : Nat))) staleDb none (by decide) (by decide)
  exact ⟨by decide, by decide, h.1, h.2⟩

/-- Claim C10 counterexample: the empty name normalizes to the empty
string, which the registry can bind (register a whitespace-only name
first); check-username reports it as not taken, but register-username by
a different identity is rejected as Missing by the presence guard, not
with the Taken conflict stated by the claim. -/
theorem short_name_check_vs_register_counterexample :
    V35.checkUsername (some "") [("", "1")] = false ∧
    (V35.registerUsername "2025-W41" "2" "" none
        { dbEx with usernames := [("", "1")] }).2 = V35.RegResult.missing := by
  exact ⟨rfl, rfl⟩

/-- Claim C10 (amended): for every nonempty name whose normalized
(lowercased-then-trimmed) form is shorter than 2 characters,
check-username reports the name as not taken even when the registry binds
that normalized form to some identity, while register-username for the
same name by a different identity still fails with the Taken conflict. -/
theorem short_name_check_vs_register (name week : String)
    (tg : Option String) (db : V35.DB) (I J : String)
    (hname : name ≠ "") (hJ : J ≠ "")
    (hshort : (jsTrim (jsToLower name)).length < 2)
    (hreg : getA (jsTrim (jsToLower name)) db.usernames = some I)
    (hIJ : I ≠ J) :
    V35.checkUsername (some name) db.usernames = false ∧
    (V35.registerUsername week J name tg db).2 = V35.RegResult.taken := by
  constructor
  · have h₂ : ¬ (2 ≤ (jsTrim (jsToLower name)).length) := by omega
    simp [V35.checkUsername, h₂]
  · have hg : V35.regGuard J name = false := by
      simp [V35.regGuard, hJ, hname]
    have hc : V35.regConflict J (jsTrim (jsToLower name)) db.usernames = true := by
      simp [V35.regConflict, hreg, bne_iff_ne, hIJ]
    rw [V35.registerUsername_eq_taken hg hc]

theorem short_name_check_vs_register_witness :
    (("a" ≠ "") ∧ ("2" ≠ "") ∧ (jsTrim (jsToLower "a")).length < 2 ∧
      getA (jsTrim (jsToLower "a")) [("a", "1")] = some "1" ∧ "1" ≠ "2") ∧
    (V35.checkUsername (some "a") [("a", "1")] = false ∧
      (V35.registerUsername "2025-W41" "2" "a" none
          { dbEx with usernames := [("a", "1")] }).2 = V35.RegResult.taken) := by
  refine ⟨⟨by decide, by decide, by decide, by decide, by decide⟩, ?_⟩
  exact short_name_check_vs_register "a" "2025-W41" none
    { dbEx with usernames := [("a", "1")] } "1" "2" (by decide) (by decide)
    (by decide) (by decide) (by decide)

/-- Claim C8 counterexample: the users admin endpoint does not run the
presence sweep before serving — with the correct password and a presence
entry last seen 1000000 ms before now, the endpoint leaves the store,
including the stale entry, unchanged. -/
theorem presence_sweep_counterexample :
    (1000000 : Int) - staleEntry.lastSeen > 300000 ∧
    (V35.adminAuth "admin123" (some "admin123") V35.adminUsers staleDb).1
      = staleDb ∧
    getA "1" (V35.adminAuth "admin123" (some "admin123") V35.adminUsers
        staleDb).1.onlineUsers = some staleEntry := by
  exact ⟨by decide, rfl, rfl⟩

/-- Claim C8 (amended): the sweep removes exactly the presence entries
last seen more than 300000 ms before now; the dashboard endpoint runs the
sweep before serving, so its presence listing holds no entry older than
300 s; the users admin endpoint serves without sweeping or mutating the
store (and v3.5 exposes no admin payments endpoint). -/
theorem presence_eviction_and_dashboard_sweep (now : Int)
    (onl : List (String × V35.OnlineUser)) (week : String) (db : V35.DB) :
    (∀ x ∈ V35.cleanupOffline now onl, now - x.2.lastSeen ≤ 300000) ∧
    (∀ x ∈ onl, now - x.2.lastSeen ≤ 300000 → x ∈ V35.cleanupOffline now onl) ∧
    (V35.adminDashboard week now db).1.onlineUsers
      = V35.cleanupOffline now db.onlineUsers ∧
    (∀ u ∈ (V35.adminDashboard week now db).2, now - u.lastSeen ≤ 300000) ∧
    (V35.adminUsers db).1 = db := by
  refine ⟨?_, ?_, ?_, ?_, rfl⟩
  · intro x hx
    have := (List.mem_filter.mp hx).2
    simp only [Bool.not_eq_true] at this
    have h₁ : ¬ (now - x.2.lastSeen > 300000) := by
      intro hgt
      simp [hgt] at this
    omega
  · intro x hx hfresh
    refine List.mem_filter.mpr ⟨hx, ?_⟩
    have h₁ : ¬ (now - x.2.lastSeen > 300000) := by omega
    simp [h₁]
  · simp only [V35.adminDashboard]
    rw [V35.checkNewWeek_onlineUsers]
  · intro u hu
    simp only [V35.adminDashboard] at hu
    have hperm := sortByDesc_perm (fun v : V35.OnlineUser => v.lastSeen)
      ((V35.checkNewWeek week
        { db with onlineUsers := V35.cleanupOffline now db.onlineUsers }).onlineUsers.map
        (fun x => x.2))
    have hmem := hperm.mem_iff.mp hu
    rw [V35.checkNewWeek_onlineUsers] at hmem
    obtain ⟨x, hx, hxu⟩ := List.mem_map.mp hmem
    have := (List.mem_filter.mp hx).2
    simp only [Bool.not_eq_true] at this
    have h₁ : ¬ (now - x.2.lastSeen > 300000) := by
      intro hgt
      simp [hgt] at this
    rw [← hxu]
    omega

/-- Claim C1 counterexample: on a board already at its capacity of 100,
a submission by a fresh identity with a score below the cut is appended,
sorted to the bottom, and truncated away — afterwards the identity has no
stored score at all, instead of the claimed max(previous, S) = 10. -/
theorem submission_stores_max_score_counterexample :
    V31.scoreOf "x9" (V31.updateLeaderboard "x9" (some "N") (some 10) fullBoard)
      = none ∧ fullBoard.length = 100 := by
  exact ⟨by decide, by decide⟩

/-- Claim C1 (amended): for every board (v3.1 global, v3.5 current-week
bucket, v3.5 all-time) and every submission that passes the guard
(nonempty identity, nonzero score), if the board has pairwise distinct
identities, is within its capacity, and — when the identity is not yet on
the board — strictly below it, then the stored score of the identity
after the submission is exactly max(previous stored score, S); a fresh
identity on a full board can instead be truncated away. -/
theorem submission_stores_max_score (odairy : String) (username : Option String)
    (s : Int) (nameColor : Option String) (isVip isVVIP : Option Bool)
    (week : String) (now : Int) (lb : List V31.GEntry) (db : V35.DB)
    (wlb : List V35.WEntry)
    (ho : odairy ≠ "") (hs : s ≠ 0)
    (hnd : (lb.map (fun e => e.odairy)).Nodup) (hlen : lb.length ≤ 100)
    (hroom : V31.scoreOf odairy lb = none → lb.length < 100)
    (hw : (getA week db.weeklyLeaderboard).getD [] = wlb)
    (hndw : (wlb.map (fun e => e.odairy)).Nodup) (hlenw : wlb.length ≤ 100)
    (hroomw : V35.wScoreOf odairy wlb = none → wlb.length < 100)
    (hnda : (db.allTimeLeaderboard.map (fun e => e.odairy)).Nodup)
    (hlena : db.allTimeLeaderboard.length ≤ 500)
    (hrooma : V35.aScoreOf odairy db.allTimeLeaderboard = none →
      db.allTimeLeaderboard.length < 500) :
    V31.scoreOf odairy (V31.updateLeaderboard odairy username (some s) lb)
      = some ((V31.scoreOf odairy lb).elim s (fun q => max q s)) ∧
    V35.wScoreOf odairy ((getA week (V35.updateWeeklyLeaderboard week now odairy
        username (some s) nameColor isVip isVVIP db).weeklyLeaderboard).getD [])
      = some ((V35.wScoreOf odairy wlb).elim s (fun q => max q s)) ∧
    V35.aScoreOf odairy (V35.updateAllTimeLeaderboard odairy username (some s)
        nameColor isVip isVVIP db).allTimeLeaderboard
      = some ((V35.aScoreOf odairy db.allTimeLeaderboard).elim s (fun q => max q s)) := by
  have hguard : (odairy == "" || intFalsy (some s)) = false := by
    simp [intFalsy, ho, hs]
  have hneg : ¬ ((odairy == "" || intFalsy (some s)) = true) := by
    rw [hguard]
    exact Bool.false_ne_true
  refine ⟨?_, ?_, ?_⟩
  · have hroom₁ : lb.find? (fun e => e.odairy == odairy) = none → lb.length < 100 := by
      intro hf
      exact hroom (by simp [V31.scoreOf, hf])
    have key := board_step_lookup (fun e : V31.GEntry => e.odairy) (fun e => e.score)
      odairy s
      (fun e => { e with
        score := if s > e.score then s else e.score
        username := strOr username ("Player_" ++ sliceNeg4 odairy) })
      { odairy := odairy, username := strOr username ("Player_" ++ sliceNeg4 odairy),
        score := s, avatar := "🎮" }
      100 lb
      (fun x => rfl)
      (fun x => by
        dsimp only
        rcases le_or_lt s x.score with h | h
        · rw [if_neg (not_lt.mpr h), max_eq_left h]
        · rw [if_pos h, max_eq_right (le_of_lt h)])
      rfl rfl hnd hlen hroom₁
    rw [V31.updateLeaderboard, if_neg hneg]
    exact key
  · have hroom₁ : wlb.find? (fun e => e.odairy == odairy) = none → wlb.length < 100 := by
      intro hf
      exact hroomw (by simp [V35.wScoreOf, hf])
    have key := board_step_lookup (fun e : V35.WEntry => e.odairy) (fun e => e.score)
      odairy s
      (fun e => { e with
        score := if s > e.score then s else e.score
        username := username
        nameColor := nameColor
        isVip := isVip
        isVVIP := isVVIP
        avatar := V35.avatarOf odairy db.users })
      { odairy := odairy, username := username, score := s,
        avatar := V35.avatarOf odairy db.users, nameColor := nameColor,
        isVip := isVip, isVVIP := isVVIP, lastUpdated := now }
      100 wlb
      (fun x => rfl)
      (fun x => by
        dsimp only
        rcases le_or_lt s x.score with h | h
        · rw [if_neg (not_lt.mpr h), max_eq_left h]
        · rw [if_pos h, max_eq_right (le_of_lt h)])
      rfl rfl hndw hlenw hroom₁
    rw [V35.updateWeeklyLeaderboard, if_neg hneg]
    dsimp only
    rw [getA_setA_self]
    simp only [Option.getD_some]
    rw [hw]
    exact key
  · have hroom₁ : db.allTimeLeaderboard.find? (fun e => e.odairy == odairy) = none →
        db.allTimeLeaderboard.length < 500 := by
      intro hf
      exact hrooma (by simp [V35.aScoreOf, hf])
    have key := board_step_lookup (fun e : V35.AEntry => e.odairy) (fun e => e.score)
      odairy s
      (fun e => { e with
        score := if s > e.score then s else e.score
        username := username
        nameColor := nameColor
        isVip := isVip
        isVVIP := isVVIP
        avatar := V35.avatarOf odairy db.users })
      { odairy := odairy, username := username, score := s,
        avatar := V35.avatarOf odairy db.users, nameColor := nameColor,
        isVip := isVip, isVVIP := isVVIP }
      500 db.allTimeLeaderboard
      (fun x => rfl)
      (fun x => by
        dsimp only
        rcases le_or_lt s x.score with h | h
        · rw [if_neg (not_lt.mpr h), max_eq_left h]
        · rw [if_pos h, max_eq_right (le_of_lt h)])
      rfl rfl hnda hlena hroom₁
    rw [V35.updateAllTimeLeaderboard, if_neg hneg]
    exact key

theorem submission_stores_max_score_witness :
    ((("1" : String) ≠ "") ∧ ((7 : Int) ≠ 0) ∧
      ((([] : List V31.GEntry).map (fun e => e.odairy)).Nodup) ∧
      (([] : List V31.GEntry).length ≤ 100) ∧
      (V31.scoreOf "1" [] = none → ([] : List V31.GEntry).length < 100) ∧
      ((getA "2025-W41" dbEx.weeklyLeaderboard).getD [] = []) ∧
      ((([] : List V35.WEntry).map (fun e => e.odairy)).Nodup) ∧
      (([] : List V35.WEntry).length ≤ 100) ∧
      (V35.wScoreOf "1" [] = none → ([] : List V35.WEntry).length < 100) ∧
      ((dbEx.allTimeLeaderboard.map (fun e => e.odairy)).Nodup) ∧
      (dbEx.allTimeLeaderboard.length ≤ 500) ∧
      (V35.aScoreOf "1" dbEx.allTimeLeaderboard = none →
        dbEx.allTimeLeaderboard.length < 500)) ∧
    (V31.scoreOf "1" (V31.updateLeaderboard "1" (some "A") (some 7) []) = some 7 ∧
      V35.wScoreOf "1" ((getA "2025-W41" (V35.updateWeeklyLeaderboard "2025-W41" 5 "1"
          (some "A") (some 7) none none none dbEx).weeklyLeaderboard).getD [])
        = some 7 ∧
      V35.aScoreOf "1" (V35.updateAllTimeLeaderboard "1" (some "A") (some 7) none
          none none dbEx).allTimeLeaderboard = some 7) := by
  refine ⟨⟨by decide, by decide, by decide, by decide, by decide, by decide,
    by decide, by decide, by decide, by decide, by decide, by decide⟩, ?_⟩
  exact submission_stores_max_score "1" (some "A") 7 none none none "2025-W41" 5
    [] dbEx [] (by decide) (by decide) (by decide) (by decide) (by decide)
    (by decide) (by decide) (by decide) (by decide) (by decide) (by decide)
    (by decide)

/-- Claim C2 counterexample: the webhook copies the inbound update's
total_amount into the payment record without validating it against the
package price: an update with payload stars:stars_100:7 but total_amount
999 appends one record with amount 999, not the package price 10 (100
stars are still credited, driven by the payload alone). -/
theorem webhook_stars100_counterexample :
    ((V31.handleSuccessfulPayment 123 tgU7 pay999 db31Ex).payments.map
      (fun r => r.amount)) = [999] ∧
    (getA "7" (V31.handleSuccessfulPayment 123 tgU7 pay999 db31Ex).users).map
      (fun x => x.totalStarsPurchased) = some 100 := by
  exact ⟨by decide, by decide⟩

/-- Claim C2 (amended): for every inbound update carrying a
successful_payment with invoice payload stars:stars_100:7 from user id 7,
provided user 7 has a user record and the update's total_amount is the
invoiced package price 10, the v3.1 handler appends exactly one payment
record whose amount is 10 and credits user 7 with exactly 100 stars (the
stars_100 base of 100 with no bonus).  Without a user record no credit
occurs, and the recorded amount is always the update's total_amount. -/
theorem webhook_stars100_credits (now : Int) (u : V31.TgUser)
    (p : V31.SuccessfulPayment) (db : V31.DB31) (usr : V31.V31User)
    (hid : u.id = 7)
    (hpayload : p.invoice_payload = "stars:stars_100:7")
    (hamount : p.total_amount = 10)
    (husr : getA "7" db.users = some usr) :
    (∃ rec, (V31.handleSuccessfulPayment now u p db).payments
        = db.payments ++ [rec] ∧ rec.amount = 10 ∧
        rec.item = "stars:stars_100:7") ∧
    (getA "7" (V31.handleSuccessfulPayment now u p db).users).map
        (fun x => x.totalStarsPurchased)
      = some (usr.totalStarsPurchased + 100) := by
  obtain ⟨uid, uu, uf, ul⟩ := u
  obtain ⟨pa, pc, pl⟩ := p
  dsimp only at hid hpayload hamount
  subst hid
  subst hpayload
  subst hamount
  have h7 : toString (7 : Int) = "7" := rfl
  have hsw : jsStartsWith "stars:stars_100:7" "stars:" = true := rfl
  have hpk : ((jsSplit ':' "stars:stars_100:7").get? 1).getD "" = "stars_100" := rfl
  have hfind : V31.STAR_PACKAGES.find? (fun pk => pk.id == "stars_100")
      = some { id := "stars_100", stars := 100, price := 10, bonus := 0 } := rfl
  cases hjs : jsStr uu with
  | none =>
    simp only [V31.handleSuccessfulPayment, h7, husr, hjs, hsw, hpk, hfind,
      getA_setA_self, if_true]
    refine ⟨⟨_, rfl, rfl, rfl⟩, ?_⟩
    simp
  | some tu =>
    simp only [V31.handleSuccessfulPayment, h7, husr, hjs, hsw, hpk, hfind,
      getA_setA_self, if_true]
    refine ⟨⟨_, rfl, rfl, rfl⟩, ?_⟩
    simp

theorem webhook_stars100_credits_witness :
    ((tgU7.id = 7) ∧ (pay10.invoice_payload = "stars:stars_100:7") ∧
      (pay10.total_amount = 10) ∧ (getA "7" db31Ex.users = some v31u7)) ∧
    ((∃ rec, (V31.handleSuccessfulPayment 123 tgU7 pay10 db31Ex).payments
        = db31Ex.payments ++ [rec] ∧ rec.amount = 10 ∧
        rec.item = "stars:stars_100:7") ∧
      (getA "7" (V31.handleSuccessfulPayment 123 tgU7 pay10 db31Ex).users).map
          (fun x => x.totalStarsPurchased)
        = some (v31u7.totalStarsPurchased + 100)) := by
  refine ⟨⟨by decide, by decide, by decide, by decide⟩, ?_⟩
  exact webhook_stars100_credits 123 tgU7 pay10 db31Ex v31u7 (by decide)
    (by decide) (by decide) (by decide)

/-- Claim C3 counterexample: a successful rename only rewrites the
current week bucket and the all-time board — the bucket of the earlier
week 2025-W40 still shows the old display name afterwards, although the
claim demands every weekly bucket, including prior weeks, be renamed. -/
theorem rename_propagation_counterexample :
    (V35.registerUsername "2025-W41" "1" "New" none dbC3).2
      = V35.RegResult.success ∧
    ((getA "2025-W40" (V35.registerUsername "2025-W41" "1" "New" none
        dbC3).1.weeklyLeaderboard).getD []).map (fun e => e.username)
      = [some "Old"] := by
  exact ⟨by decide, by decide⟩

/-- Claim C3 (amended): after a successful register(I, name), the display
name of the leaderboard entry of I in the current week bucket and in the
all-time board equals the newly registered name; buckets of prior weeks
are not rewritten and keep their recorded names. -/
theorem rename_propagates_current_and_alltime (week odairy username : String)
    (tg : Option String) (db : V35.DB)
    (hsuccess : (V35.registerUsername week odairy username tg db).2
      = V35.RegResult.success) :
    (∀ b e, getA week db.weeklyLeaderboard = some b →
      b.find? (fun x => x.odairy == odairy) = some e →
      ((getA week (V35.registerUsername week odairy username tg
          db).1.weeklyLeaderboard).getD []).find? (fun x => x.odairy == odairy)
        = some { e with username := some username }) ∧
    (∀ e, db.allTimeLeaderboard.find? (fun x => x.odairy == odairy) = some e →
      (V35.registerUsername week odairy username tg db).1.allTimeLeaderboard.find?
          (fun x => x.odairy == odairy)
        = some { e with username := some username }) := by
  obtain ⟨hg, hc⟩ := V35.registerUsername_success_inv hsuccess
  obtain ⟨_, _, _, hwk, hat⟩ := V35.registerUsername_success_state week tg hg hc
  constructor
  · intro b e hb hfind
    rw [hwk, hb]
    rw [getA_setA_self]
    simp only [Option.getD_some]
    exact find?_updateFirst_of_found (fun x => rfl) hfind
  · intro e hfind
    rw [hat]
    exact find?_updateFirst_of_found (fun x => rfl) hfind

theorem rename_propagates_current_and_alltime_witness :
    ((V35.registerUsername "2025-W41" "1" "New" none dbC3).2
      = V35.RegResult.success) ∧
    ((getA "2025-W41" (V35.registerUsername "2025-W41" "1" "New" none
        dbC3).1.weeklyLeaderboard).getD []).find? (fun x => x.odairy == "1")
      = some { wOld with username := some "New" } ∧
    (V35.registerUsername "2025-W41" "1" "New" none dbC3).1.allTimeLeaderboard.find?
        (fun x => x.odairy == "1") = some { aOld with username := some "New" } := by
  have h := rename_propagates_current_and_alltime "2025-W41" "1" "New" none dbC3
    (by decide)
  exact ⟨by decide, h.1 [wOld] wOld (by decide) (by decide),
    h.2 aOld (by decide)⟩

/-- Claim C4 counterexample: when identity 1 has no user record (it never
sent a heartbeat), registering Foo then Bar never releases foo — the
release path is guarded by the user-record lookup — so the final
register of foo by identity 2 still fails with the Taken conflict instead
of succeeding as the claim states. -/
theorem username_release_counterexample :
    ((V35.registerUsername "w" "1" "Foo" none dbEx).2
      = V35.RegResult.success) ∧
    ((V35.registerUsername "w" "2" "foo" none
        (V35.registerUsername "w" "1" "Foo" none dbEx).1).2
      = V35.RegResult.taken) ∧
    ((V35.registerUsername "w" "1" "Bar" none
        (V35.registerUsername "w" "2" "foo" none
          (V35.registerUsername "w" "1" "Foo" none dbEx).1).1).2
      = V35.RegResult.success) ∧
    ((V35.registerUsername "w" "2" "foo" none
        (V35.registerUsername "w" "1" "Bar" none
          (V35.registerUsername "w" "2" "foo" none
            (V35.registerUsername "w" "1" "Foo" none dbEx).1).1).1).2
      = V35.RegResult.taken) := by
  exact ⟨by decide, by decide, by decide, by decide⟩

/-- Claim C4 (amended): provided identity I has a user record and the
registry is well formed (pairwise distinct names), after register(I, Foo)
succeeds, register(J, foo) for J distinct from I fails with the Taken
conflict and leaves the store unchanged; and after a subsequent
successful register(I, Bar), the name foo is released, so register(J,
foo) then succeeds.  Without a user record for I the release never
happens and the final registration still fails. -/
theorem username_release_requires_user_record (week I J : String)
    (tg₁ tg₂ tg₃ tg₄ : Option String) (db : V35.DB) (u : V35.User)
    (hIJ : I ≠ J) (hJ : J ≠ "")
    (hnd : (db.usernames.map Prod.fst).Nodup)
    (husers : getA I db.users = some u)
    (h1 : (V35.registerUsername week I "Foo" tg₁ db).2 = V35.RegResult.success)
    (h3 : (V35.registerUsername week I "Bar" tg₃
        (V35.registerUsername week I "Foo" tg₁ db).1).2
      = V35.RegResult.success) :
    V35.registerUsername week J "foo" tg₂
        (V35.registerUsername week I "Foo" tg₁ db).1
      = ((V35.registerUsername week I "Foo" tg₁ db).1, V35.RegResult.taken) ∧
    (V35.registerUsername week J "foo" tg₄
        (V35.registerUsername week I "Bar" tg₃
          (V35.registerUsername week I "Foo" tg₁ db).1).1).2
      = V35.RegResult.success := by
  obtain ⟨hg1, hc1⟩ := V35.registerUsername_success_inv h1
  obtain ⟨_, husers1, hnames1, _, _⟩ := V35.registerUsername_success_state week tg₁ hg1 hc1
  rw [husers] at husers1 hnames1
  dsimp only at husers1 hnames1
  rw [show jsTrim (jsToLower "Foo") = "foo" from rfl] at hnames1
  -- the registry after step 1 binds foo to I, whatever the old display name was
  have hfoo1 : getA "foo" (V35.registerUsername week I "Foo" tg₁ db).1.usernames
      = some I := by
    cases hd : jsStr u.displayName with
    | none =>
      rw [hnames1, hd, getA_setA_self]
    | some old =>
      rw [hnames1, hd, getA_setA_self]
  have hnd1 : ((V35.registerUsername week I "Foo" tg₁
      db).1.usernames.map Prod.fst).Nodup := by
    cases hd : jsStr u.displayName with
    | none =>
      rw [hnames1, hd]
      exact nodup_keys_setA hnd I
    | some old =>
      rw [hnames1, hd]
      exact nodup_keys_setA (nodup_keys_delA hnd) I
  have hg2 : V35.regGuard J "foo" = false := by
    simp [V35.regGuard, hJ]
  have hc2 : V35.regConflict J (jsTrim (jsToLower "foo"))
      (V35.registerUsername week I "Foo" tg₁ db).1.usernames = true := by
    rw [show jsTrim (jsToLower "foo") = "foo" from rfl]
    unfold V35.regConflict
    rw [hfoo1]
    simp [bne_iff_ne, hIJ]
  refine ⟨V35.registerUsername_eq_taken hg2 hc2, ?_⟩
  -- step 3: register(I, Bar) releases foo
  obtain ⟨hg3, hc3⟩ := V35.registerUsername_success_inv h3
  obtain ⟨_, _, hnames3, _, _⟩ := V35.registerUsername_success_state week tg₃ hg3 hc3
  have husersI1 : getA I (V35.registerUsername week I "Foo" tg₁ db).1.users
      = some { u with displayName := some "Foo", telegramUsername := tg₁ } := by
    rw [husers1, getA_setA_self]
  rw [husersI1] at hnames3
  dsimp only at hnames3
  rw [show jsTrim (jsToLower "Bar") = "bar" from rfl] at hnames3
  rw [show jsStr (some "Foo") = some "Foo" from rfl] at hnames3
  dsimp only at hnames3
  rw [show jsToLower "Foo" = "foo" from rfl] at hnames3
  have hfoo3 : getA "foo" (V35.registerUsername week I "Bar" tg₃
      (V35.registerUsername week I "Foo" tg₁ db).1).1.usernames = none := by
    rw [hnames3, getA_setA_ne (by decide)]
    exact getA_delA_self hnd1
  have hg4 : V35.regGuard J "foo" = false := by
    simp [V35.regGuard, hJ]
  have hc4 : V35.regConflict J (jsTrim (jsToLower "foo"))
      (V35.registerUsername week I "Bar" tg₃
        (V35.registerUsername week I "Foo" tg₁ db).1).1.usernames = false := by
    rw [show jsTrim (jsToLower "foo") = "foo" from rfl]
    unfold V35.regConflict
    rw [hfoo3]
  exact (V35.registerUsername_success_state week tg₄ hg4 hc4).1

theorem username_release_requires_user_record_witness :
    (("1" ≠ "2") ∧ ("2" ≠ "") ∧ ((dbC4.usernames.map Prod.fst).Nodup) ∧
      (getA "1" dbC4.users = some userEx) ∧
      ((V35.registerUsername "w" "1" "Foo" none dbC4).2
        = V35.RegResult.success) ∧
      ((V35.registerUsername "w" "1" "Bar" none
          (V35.registerUsername "w" "1" "Foo" none dbC4).1).2
        = V35.RegResult.success)) ∧
    (V35.registerUsername "w" "2" "foo" none
        (V35.registerUsername "w" "1" "Foo" none dbC4).1
      = ((V35.registerUsername "w" "1" "Foo" none dbC4).1,
        V35.RegResult.taken) ∧
    (V35.registerUsername "w" "2" "foo" none
        (V35.registerUsername "w" "1" "Bar" none
          (V35.registerUsername "w" "1" "Foo" none dbC4).1).1).2
      = V35.RegResult.success) := by
  refine ⟨⟨by decide, by decide, by decide, by decide, by decide, by decide⟩, ?_⟩
  exact username_release_requires_user_record "w" "1" "2" none none none none
    dbC4 userEx (by decide) (by decide) (by decide) (by decide) (by decide)
    (by decide)

/-- Claim C5: starting from the empty stores, after every sequence of
submissions each board — the v3.1 global board, every v3.5 weekly bucket
ever created, and the v3.5 all-time board — holds at most one entry per
identity. -/
theorem boards_have_unique_identities (subs : List Sub) (week₀ : String) :
    ((V31.runSubs subs).map (fun e => e.odairy)).Nodup ∧
    (∀ w b, getA w (V35.runSubs (V35.initDB week₀) subs).weeklyLeaderboard
        = some b → (b.map (fun e => e.odairy)).Nodup) ∧
    ((V35.runSubs (V35.initDB week₀) subs).allTimeLeaderboard.map
      (fun e => e.odairy)).Nodup := by
  have hglobal := runSubs_global_nodup_aux subs [] (by simp)
  have hv35 := runSubs_v35_nodup subs (V35.initDB week₀)
    (by
      intro w b hb
      simp [V35.initDB, getA] at hb)
    (by simp [V35.initDB])
  exact ⟨hglobal, hv35.1, hv35.2⟩

/-- Claim C6: starting from the empty stores, after every sequence of
submissions each board is sorted in descending order by score and within
its capacity: 100 entries for the v3.1 global board and each v3.5 weekly
bucket, 500 for the v3.5 all-time board. -/
theorem boards_sorted_and_capped (subs : List Sub) (week₀ : String) :
    ((V31.runSubs subs).Sorted (fun a b => b.score ≤ a.score) ∧
      (V31.runSubs subs).length ≤ 100) ∧
    (∀ w b, getA w (V35.runSubs (V35.initDB week₀) subs).weeklyLeaderboard
        = some b → b.Sorted (fun a c => c.score ≤ a.score) ∧ b.length ≤ 100) ∧
    ((V35.runSubs (V35.initDB week₀) subs).allTimeLeaderboard.Sorted
        (fun a c => c.score ≤ a.score) ∧
      (V35.runSubs (V35.initDB week₀) subs).allTimeLeaderboard.length ≤ 500) := by
  have hglobal := runSubs_global_sorted_aux subs [] (by simp)
  have hv35 := runSubs_v35_sorted subs (V35.initDB week₀)
    (by
      intro w b hb
      simp [V35.initDB, getA] at hb)
    (by simp [V35.initDB])
  exact ⟨hglobal, hv35.1, hv35.2⟩

end FruitMerge
